import Mathlib

/-
Verification of the blockmodel-fitting engine.

The development shallowly embeds the greedy optimizer
(`GreedyStrategy::step` / `GreedyStrategy::optimize` from
src/src/lib/optimization.cpp), the best-model tracking loop and the
model-selection sweep of the fitting driver
(src/src/ui/block-fit/main.cpp) and the graph-loading front end.
Machine doubles are modelled as real numbers; igraph vectors as lists.
The blockmodel state itself (type assignment, derived probability
matrix, log-likelihood) is not part of the sources, so its derived
quantities are modelled from the specification text and are marked as
such below.
-/

namespace BM

/-- An undirected graph on vertices `0..n-1`: vertex count plus a Boolean
adjacency predicate (symmetric for the graphs considered here). -/
structure Graph where
  n : ℕ
  adj : ℕ → ℕ → Bool

/-- State of an undirected blockmodel: the underlying graph, the number `k`
of types (blocks) and the per-vertex type assignment, a list of length `n`. -/
structure Model where
  graph : Graph
  k : ℕ
  types : List ℕ

/-- Type of vertex `i` (lookup in the assignment vector). -/
def Model.typeOf (m : Model) (i : ℕ) : ℕ := m.types.getD i 0

/-- Modelled from the spec: number of vertices currently assigned to block `t`
(the Blockmodel implementation is not among the sources). -/
def blockSize (m : Model) (t : ℕ) : ℕ :=
  (List.range m.graph.n).countP fun i => m.typeOf i == t

/-- Modelled from the spec: number of observed edges joining a vertex of
block `a` with a vertex of block `b` (each unordered pair counted once). -/
def edgeCount (m : Model) (a b : ℕ) : ℕ :=
  ((List.range m.graph.n).map fun j =>
    (List.range j).countP fun i =>
      m.graph.adj i j &&
        ((m.typeOf i == a && m.typeOf j == b) ||
         (m.typeOf i == b && m.typeOf j == a))).sum

/-- Modelled from the spec: number of possible vertex pairs spanning blocks
`a` and `b`, the diagonal case excluding self-pairs. -/
def pairCount (m : Model) (a b : ℕ) : ℕ :=
  if a = b then blockSize m a * (blockSize m a - 1) / 2
  else blockSize m a * blockSize m b

/-- Modelled from the spec: entry `(a,b)` of the derived block-pair
probability matrix, the maximum-likelihood estimate `edges / pairs`
(zero when the pair count is zero). -/
def prob (m : Model) (a b : ℕ) : ℚ :=
  if pairCount m a b = 0 then 0
  else (edgeCount m a b : ℚ) / (pairCount m a b : ℚ)

/-- The helper `log_1_minus_x` of src/src/lib/optimization.cpp, verbatim:
it returns `1 - log x`. -/
noncomputable def log_1_minus_x (x : ℝ) : ℝ := 1 - Real.log x

/-- Number of neighbors of vertex `i` having type `t`
(`neiCountByType` in `GreedyStrategy::step`). -/
def neiCountByType (m : Model) (i t : ℕ) : ℕ :=
  (List.range m.graph.n).countP fun j => m.graph.adj i j && m.typeOf j == t

/-- Entry `(c,t)` of the matrix `logP - log1P` computed by
`GreedyStrategy::step`, where `log1P` is obtained by mapping
`log_1_minus_x` over the probability matrix. -/
noncomputable def oddsEntry (m : Model) (c t : ℕ) : ℝ :=
  Real.log (prob m c t : ℝ) - log_1_minus_x (prob m c t : ℝ)

/-- Score of candidate block `c` for vertex `i` in `GreedyStrategy::step`:
row `c` of the matrix-vector product `(logP - log1P) * neiCountByType`. -/
noncomputable def score (m : Model) (i c : ℕ) : ℝ :=
  ∑ t ∈ Finset.range m.k, (neiCountByType m i t : ℝ) * oddsEntry m c t

/-- The score the specification prescribes for candidate block `c`: the inner
product of the neighbor-count vector with the log-odds row
`log p - log (1 - p)`. Stated from the spec's words, for comparison with
`score` above. -/
noncomputable def specScore (m : Model) (i c : ℕ) : ℝ :=
  ∑ t ∈ Finset.range m.k,
    (neiCountByType m i t : ℝ) *
      (Real.log (prob m c t : ℝ) - Real.log (1 - (prob m c t : ℝ)))

/-- Index of the first maximum of `f` on `0..k-1`, scanning left to right and
replacing the running best only on strict improvement
(`std::max_element` semantics); `0` when `k = 0`. -/
noncomputable def bestOf (f : ℕ → ℝ) : ℕ → ℕ
  | 0 => 0
  | 1 => 0
  | k + 2 => if f (bestOf f (k + 1)) < f (k + 1) then k + 1 else bestOf f (k + 1)

/-- The block `GreedyStrategy::step` proposes for vertex `i`: the first
maximizer of its per-candidate scores. -/
noncomputable def newType (m : Model) (i : ℕ) : ℕ := bestOf (score m i) m.k

/-- The buffer `newTypes` of `GreedyStrategy::step`: every vertex's proposed
block, computed from the state at the start of the call. -/
noncomputable def stepTypes (m : Model) : List ℕ :=
  (List.range m.graph.n).map (newType m)

/-- Return value of `GreedyStrategy::step`: whether the proposed assignment
differs from the current one. -/
noncomputable def stepReturns (m : Model) : Bool :=
  decide (stepTypes m ≠ m.types)

/-- State of the model after `GreedyStrategy::step`: the buffer is committed
at once when it differs from the current assignment, otherwise nothing is
mutated. -/
noncomputable def stepApply (m : Model) : Model :=
  if stepTypes m ≠ m.types then { m with types := stepTypes m } else m

/-- Modelled from the spec: contribution of one block pair with `e` observed
edges out of `p` possible pairs to the log-likelihood, under the
independent-Bernoulli edge model at the maximum-likelihood estimate
`e / p`; empty and saturated pairs contribute zero. -/
noncomputable def pairTerm (e p : ℕ) : ℝ :=
  (e : ℝ) * Real.log ((e : ℝ) / (p : ℝ)) +
    ((p - e : ℕ) : ℝ) * Real.log (((p - e : ℕ) : ℝ) / (p : ℝ))

/-- Modelled from the spec: the model's log-likelihood, summed over unordered
block pairs (the Blockmodel implementation is not among the sources). -/
noncomputable def logLikelihood (m : Model) : ℝ :=
  ∑ a ∈ Finset.range m.k, ∑ b ∈ Finset.range m.k,
    if a ≤ b then pairTerm (edgeCount m a b) (pairCount m a b) else 0

/-- State threaded through the model-selection sweep of
`BlockmodelFittingApp::run`: best AIC and best BIC seen so far (`none`
standing for the `DBL_MAX` initial sentinel) and the best model seen so
far. -/
structure SelState (α : Type) where
  bestAIC : Option ℝ
  bestBIC : Option ℝ
  bestModel : Option α

/-- Candidate group counts tried when `K` is unspecified: the loop
`for (k = 2; k <= sqrt(vcount()); k++)` of `BlockmodelFittingApp::run`,
with the double comparison against `sqrt` read as the floor of the
integer square root. -/
def sweepCandidates (n : ℕ) : List ℕ := List.range' 2 (Nat.sqrt n - 1)

/-- One iteration of the model-selection sweep. `fit k` abstracts the full
fit-to-convergence run for `k` groups, returning the best model found
together with its AIC and BIC: the body updates the retained model on a
strict AIC improvement and tracks the best BIC separately. -/
noncomputable def selStep {α : Type} (fit : ℕ → α × ℝ × ℝ)
    (st : SelState α) (k : ℕ) : SelState α :=
  { bestAIC :=
      match st.bestAIC with
      | none => some ((fit k).2.1)
      | some ba => if (fit k).2.1 < ba then some ((fit k).2.1) else st.bestAIC
    bestBIC :=
      match st.bestBIC with
      | none => some ((fit k).2.2)
      | some bb => if (fit k).2.2 < bb then some ((fit k).2.2) else st.bestBIC
    bestModel :=
      match st.bestAIC with
      | none => some ((fit k).1)
      | some ba => if (fit k).2.1 < ba then some ((fit k).1) else st.bestModel }

/-- The whole model-selection sweep for an `n`-vertex graph. -/
noncomputable def runSweep {α : Type} (fit : ℕ → α × ℝ × ℝ) (n : ℕ) : SelState α :=
  (sweepCandidates n).foldl (selStep fit) ⟨none, none, none⟩

/-- One iteration of the best-model tracking in
`BlockmodelFittingApp::runBlock`: after chain step `t` the best snapshot
is replaced exactly when the observed log-likelihood strictly exceeds the
recorded best. `logLs t` abstracts the live model's log-likelihood after
step `t`, `mdls t` the live model itself. -/
noncomputable def bestStep {α : Type} (logLs : ℕ → ℝ) (mdls : ℕ → α)
    (st : ℝ × α) (t : ℕ) : ℝ × α :=
  if st.1 < logLs t then (logLs t, mdls t) else st

/-- Best log-likelihood and best-model snapshot after the first `t` chain
steps of a sampling run, starting from `init`. -/
noncomputable def bestState {α : Type} (logLs : ℕ → ℝ) (mdls : ℕ → α)
    (init : ℝ × α) : ℕ → ℝ × α
  | 0 => init
  | t + 1 => bestStep logLs mdls (bestState logLs mdls init t) t

/-- The error message built by `BlockmodelFittingApp::loadGraph` for an
unopenable named file. -/
def fileNotFoundMsg (filename : String) : String := "File not found: " ++ filename

/-- `BlockmodelFittingApp::loadGraph`: read from standard input when the
filename is `"-"`, otherwise open the named file — an unopenable file
(`fs filename = none`, abstracting `fopen` returning `NULL`) is a fatal
error carrying the offending filename. -/
def loadGraph (fs : String → Option Graph) (stdinG : Graph)
    (filename : String) : Except String Graph :=
  if filename = "-" then Except.ok stdinG
  else
    match fs filename with
    | some g => Except.ok g
    | none => Except.error (fileNotFoundMsg filename)

/-- The front of `BlockmodelFittingApp::run`: the graph is loaded first and
all fitting work (`fit`) happens only on a successfully loaded graph. -/
def runApp {β : Type} (fs : String → Option Graph) (stdinG : Graph)
    (filename : String) (fit : Graph → β) : Except String β :=
  (loadGraph fs stdinG filename).map fit

/-- Adjacency of the 16-vertex counterexample graph: a path on `0..7`, the
complement of a path on `8..15`, and a half-filled bipartite part joining
every vertex of `0..7` to `8..11`. -/
def adjA (i j : ℕ) : Bool :=
  let lo := min i j
  let hi := max i j
  (decide (hi < 8) && decide (hi = lo + 1)) ||
    (decide (8 ≤ lo) && decide (lo < hi) && decide (hi < 16) &&
      !(decide (hi = lo + 1))) ||
    (decide (lo < 8) && decide (8 ≤ hi) && decide (hi < 12))

/-- The 16-vertex counterexample graph. -/
def G0 : Graph := ⟨16, adjA⟩

/-- Counterexample model: two blocks of eight vertices each; every block
pair is half filled except the near-complete block `1`
(probabilities 1/4, 1/2 and 3/4). -/
def M0 : Model := ⟨G0, 2, List.replicate 8 0 ++ List.replicate 8 1⟩

/-- The state `GreedyStrategy::step` moves `M0` to: every vertex in block 1. -/
def M1 : Model := ⟨G0, 2, List.replicate 16 1⟩

/-- A two-vertex graph with a single edge. -/
def G2 : Graph := ⟨2, fun i j => decide ((i, j) = (0, 1) ∨ (i, j) = (1, 0))⟩

/-- A one-block model on `G2`: a fixed point of `GreedyStrategy::step`. -/
def M2 : Model := ⟨G2, 1, [0, 0]⟩

/-- Adjacency with edges `{0,1}`, `{3,4}` and `{0,3}` only. -/
def adjB (i j : ℕ) : Bool :=
  decide ((min i j, max i j) = (0, 1) ∨ (min i j, max i j) = (3, 4) ∨
    (min i j, max i j) = (0, 3))

/-- Seven-vertex graph in which vertex `6` is isolated. -/
def G3 : Graph := ⟨7, adjB⟩

/-- Model on `G3` whose probability matrix entries (1/6, 1/12, 1/3) all lie
strictly between 0 and 1, with the isolated vertex `6` in block 0. -/
def M3 : Model := ⟨G3, 2, [0, 0, 0, 1, 1, 1, 0]⟩

/-- `bestOf` returns an index in range. -/
theorem bestOf_lt (f : ℕ → ℝ) : ∀ k, 0 < k → bestOf f k < k
  | 0, h => absurd h (Nat.lt_irrefl 0)
  | 1, _ => by simp [bestOf]
  | k + 2, _ => by
    have h1 : bestOf f (k + 1) < k + 1 := bestOf_lt f (k + 1) (Nat.succ_pos k)
    by_cases h : f (bestOf f (k + 1)) < f (k + 1)
    · simp only [bestOf, if_pos h]
      omega
    · simp only [bestOf, if_neg h]
      omega

/-- `bestOf` attains the maximum of `f` over `0..k-1`. -/
theorem le_bestOf (f : ℕ → ℝ) : ∀ k j, j < k → f j ≤ f (bestOf f k)
  | 0, j, hj => absurd hj (Nat.not_lt_zero j)
  | 1, j, hj => by
    interval_cases j
    simp [bestOf]
  | k + 2, j, hj => by
    by_cases h : f (bestOf f (k + 1)) < f (k + 1)
    · simp only [bestOf, if_pos h]
      rcases Nat.lt_succ_iff_lt_or_eq.mp hj with h2 | h2
      · exact le_of_lt (lt_of_le_of_lt (le_bestOf f (k + 1) j h2) h)
      · rw [h2]
    · simp only [bestOf, if_neg h]
      rcases Nat.lt_succ_iff_lt_or_eq.mp hj with h2 | h2
      · exact le_bestOf f (k + 1) j h2
      · rw [h2]; exact le_of_not_lt h

/-- Every index before `bestOf` carries a strictly smaller value: `bestOf`
is the first maximizer. -/
theorem bestOf_first (f : ℕ → ℝ) : ∀ k j, j < bestOf f k → f j < f (bestOf f k)
  | 0, j, hj => absurd hj (by simp [bestOf])
  | 1, j, hj => absurd hj (by simp [bestOf])
  | k + 2, j, hj => by
    by_cases h : f (bestOf f (k + 1)) < f (k + 1)
    · simp only [bestOf, if_pos h] at hj ⊢
      exact lt_of_le_of_lt (le_bestOf f (k + 1) j hj) h
    · simp only [bestOf, if_neg h] at hj ⊢
      exact bestOf_first f (k + 1) j hj

/-- Lookup in a mapped range. -/
theorem getD_map_range (g : ℕ → ℕ) (n i : ℕ) (hi : i < n) :
    ((List.range n).map g).getD i 0 = g i := by
  rw [List.getD_eq_getElem ((List.range n).map g) 0 (by simpa using hi)]
  simp

/-- When `step` reports no change, nothing is mutated. -/
theorem stepApply_of_no_change (m : Model) (h : stepReturns m = false) :
    stepApply m = m := by
  unfold stepReturns at h
  rw [decide_eq_false_iff_not] at h
  unfold stepApply
  rw [if_neg h]

/-- The assignment after `step` is the buffer computed from the pre-call
state (also when the buffer coincides with the current assignment). -/
theorem stepApply_types (m : Model) : (stepApply m).types = stepTypes m := by
  unfold stepApply
  by_cases h : stepTypes m ≠ m.types
  · rw [if_pos h]
  · rw [if_neg h]
    push_neg at h
    exact h.symm

/-- Per-vertex form: after `step`, vertex `i` carries the block proposed for
it from the pre-call state. -/
theorem stepApply_getD (m : Model) (i : ℕ) (hi : i < m.graph.n) :
    (stepApply m).types.getD i 0 = newType m i := by
  rw [stepApply_types]
  unfold stepTypes
  exact getD_map_range (newType m) m.graph.n i hi

/-- Probability matrix of `M0`, entry (0,0). -/
theorem probM0_00 : ((prob M0 0 0 : ℚ) : ℝ) = 1 / 4 := by
  have he : edgeCount M0 0 0 = 7 := by decide
  have hp : pairCount M0 0 0 = 28 := by decide
  unfold prob
  rw [he, hp]
  norm_num

/-- Probability matrix of `M0`, entry (0,1). -/
theorem probM0_01 : ((prob M0 0 1 : ℚ) : ℝ) = 1 / 2 := by
  have he : edgeCount M0 0 1 = 32 := by decide
  have hp : pairCount M0 0 1 = 64 := by decide
  unfold prob
  rw [he, hp]
  norm_num

/-- Probability matrix of `M0`, entry (1,0). -/
theorem probM0_10 : ((prob M0 1 0 : ℚ) : ℝ) = 1 / 2 := by
  have he : edgeCount M0 1 0 = 32 := by decide
  have hp : pairCount M0 1 0 = 64 := by decide
  unfold prob
  rw [he, hp]
  norm_num

/-- Probability matrix of `M0`, entry (1,1). -/
theorem probM0_11 : ((prob M0 1 1 : ℚ) : ℝ) = 3 / 4 := by
  have he : edgeCount M0 1 1 = 21 := by decide
  have hp : pairCount M0 1 1 = 28 := by decide
  unfold prob
  rw [he, hp]
  norm_num

/-- Two-candidate expansion of the greedy score on `M0`. -/
theorem score_M0_expand (i c : ℕ) :
    score M0 i c =
      (neiCountByType M0 i 0 : ℝ) * oddsEntry M0 c 0 +
        (neiCountByType M0 i 1 : ℝ) * oddsEntry M0 c 1 := by
  unfold score
  show ∑ t ∈ Finset.range 2, _ = _
  rw [Finset.sum_range_succ, Finset.sum_range_one]

/-- Every vertex of `M0` has at least one neighbor. -/
theorem M0_deg_pos :
    ∀ i, i < 16 → 0 < neiCountByType M0 i 0 + neiCountByType M0 i 1 := by
  decide

/-- On `M0`, candidate block 1 strictly outscores candidate block 0 for
every vertex. -/
theorem M0_score_lt (i : ℕ) (hi : i < 16) : score M0 i 0 < score M0 i 1 := by
  have hn := M0_deg_pos i hi
  rw [score_M0_expand i 0, score_M0_expand i 1]
  unfold oddsEntry log_1_minus_x
  rw [probM0_00, probM0_01, probM0_10, probM0_11]
  have hab : Real.log (1 / 4 : ℝ) < Real.log (1 / 2 : ℝ) :=
    Real.log_lt_log (by norm_num) (by norm_num)
  have hbc : Real.log (1 / 2 : ℝ) < Real.log (3 / 4 : ℝ) :=
    Real.log_lt_log (by norm_num) (by norm_num)
  have h1 : (0 : ℝ) ≤ (neiCountByType M0 i 1 : ℝ) := Nat.cast_nonneg _
  have h0 : (0 : ℝ) ≤ (neiCountByType M0 i 0 : ℝ) := Nat.cast_nonneg _
  rcases Nat.eq_zero_or_pos (neiCountByType M0 i 0) with hz | hp0
  · have hp1 : 0 < neiCountByType M0 i 1 := by omega
    have hp1R : (0 : ℝ) < (neiCountByType M0 i 1 : ℝ) := by exact_mod_cast hp1
    rw [hz]
    push_cast
    nlinarith [mul_pos hp1R (sub_pos.mpr hbc)]
  · have hp0R : (0 : ℝ) < (neiCountByType M0 i 0 : ℝ) := by exact_mod_cast hp0
    nlinarith [mul_pos hp0R (sub_pos.mpr hab),
      mul_nonneg h1 (sub_nonneg.mpr hbc.le)]

/-- The greedy step proposes block 1 for every vertex of `M0`. -/
theorem newType_M0 (i : ℕ) (hi : i < 16) : newType M0 i = 1 := by
  unfold newType
  show bestOf (score M0 i) 2 = 1
  have h := M0_score_lt i hi
  simp only [bestOf]
  rw [if_pos h]

/-- The buffer the greedy step computes on `M0` is the all-ones assignment. -/
theorem stepTypes_M0 : stepTypes M0 = List.replicate 16 1 := by
  unfold stepTypes
  show (List.range 16).map (newType M0) = _
  refine List.eq_replicate_iff.mpr ⟨by simp, ?_⟩
  intro b hb
  rcases List.mem_map.mp hb with ⟨i, hi, rfl⟩
  exact newType_M0 i (List.mem_range.mp hi)

/-- The greedy step on `M0` reports a change. -/
theorem stepReturns_M0 : stepReturns M0 = true := by
  unfold stepReturns
  rw [decide_eq_true_eq, stepTypes_M0]
  decide

/-- The greedy step moves `M0` to `M1`. -/
theorem stepApply_M0 : stepApply M0 = M1 := by
  have hne : stepTypes M0 ≠ M0.types := by
    rw [stepTypes_M0]; decide
  unfold stepApply
  rw [if_pos hne, stepTypes_M0]
  rfl

/-- Value of `log (1/2)`. -/
theorem logHalf : Real.log (1 / 2 : ℝ) = -Real.log 2 := by
  rw [one_div, Real.log_inv]

/-- Value of `log (1/4)`. -/
theorem logQuarter : Real.log (1 / 4 : ℝ) = -(2 * Real.log 2) := by
  rw [one_div, Real.log_inv, show (4 : ℝ) = 2 ^ 2 by norm_num, Real.log_pow]
  push_cast
  ring

/-- Value of `log (3/4)`. -/
theorem logThreeQuarter :
    Real.log (3 / 4 : ℝ) = Real.log 3 - 2 * Real.log 2 := by
  rw [Real.log_div (by norm_num) (by norm_num),
    show (4 : ℝ) = 2 ^ 2 by norm_num, Real.log_pow]
  push_cast
  ring

/-- The log-likelihood of `M0`, reduced to its three block-pair terms. -/
theorem logL_M0 :
    logLikelihood M0 = pairTerm 7 28 + pairTerm 32 64 + pairTerm 21 28 := by
  have e00 : edgeCount M0 0 0 = 7 := by decide
  have p00 : pairCount M0 0 0 = 28 := by decide
  have e01 : edgeCount M0 0 1 = 32 := by decide
  have p01 : pairCount M0 0 1 = 64 := by decide
  have e11 : edgeCount M0 1 1 = 21 := by decide
  have p11 : pairCount M0 1 1 = 28 := by decide
  unfold logLikelihood
  show ∑ a ∈ Finset.range 2, ∑ b ∈ Finset.range 2, _ = _
  rw [Finset.sum_range_succ, Finset.sum_range_one,
    Finset.sum_range_succ, Finset.sum_range_one,
    Finset.sum_range_succ, Finset.sum_range_one]
  rw [e00, p00, e01, p01, e11, p11]
  norm_num

/-- The log-likelihood of `M1`, reduced to its single occupied block pair. -/
theorem logL_M1 : logLikelihood M1 = pairTerm 60 120 := by
  have e00 : edgeCount M1 0 0 = 0 := by decide
  have p00 : pairCount M1 0 0 = 0 := by decide
  have e01 : edgeCount M1 0 1 = 0 := by decide
  have p01 : pairCount M1 0 1 = 0 := by decide
  have e11 : edgeCount M1 1 1 = 60 := by decide
  have p11 : pairCount M1 1 1 = 120 := by decide
  unfold logLikelihood
  show ∑ a ∈ Finset.range 2, ∑ b ∈ Finset.range 2, _ = _
  rw [Finset.sum_range_succ, Finset.sum_range_one,
    Finset.sum_range_succ, Finset.sum_range_one,
    Finset.sum_range_succ, Finset.sum_range_one]
  rw [e00, p00, e01, p01, e11, p11]
  have hz : pairTerm 0 0 = 0 := by
    unfold pairTerm
    norm_num
  rw [hz]
  norm_num

/-- Value of the half-filled block-0 pair term of `M0`. -/
theorem pairTerm_7_28 :
    pairTerm 7 28 = 7 * Real.log (1 / 4 : ℝ) + 21 * Real.log (3 / 4 : ℝ) := by
  unfold pairTerm
  norm_num

/-- Value of the cross-pair term of `M0`. -/
theorem pairTerm_32_64 : pairTerm 32 64 = 64 * Real.log (1 / 2 : ℝ) := by
  unfold pairTerm
  norm_num
  ring

/-- Value of the block-1 pair term of `M0`. -/
theorem pairTerm_21_28 :
    pairTerm 21 28 = 21 * Real.log (3 / 4 : ℝ) + 7 * Real.log (1 / 4 : ℝ) := by
  unfold pairTerm
  norm_num

/-- Value of the merged pair term of `M1`. -/
theorem pairTerm_60_120 : pairTerm 60 120 = 120 * Real.log (1 / 2 : ℝ) := by
  unfold pairTerm
  norm_num
  ring

/-- C1: the claim says `GreedyStrategy::step` scores a candidate block as the
inner product of the neighbor-count vector with `log P - log (1-P)`. The
code's helper `log_1_minus_x` computes `1 - log x` instead of `log (1-x)`,
contradicting its own name and the comment above it, so the computed score
differs from the claimed one: at probability 1/2 the helper disagrees with
`log (1 - 1/2)`, and at vertex 0 / candidate 0 of the concrete model `M0`
the computed score differs from the specified inner product. -/
theorem greedy_score_log1p_bug :
    log_1_minus_x (1 / 2 : ℝ) ≠ Real.log (1 - (1 / 2 : ℝ)) ∧
    score M0 0 0 ≠ specScore M0 0 0 := by
  have h2 : (0 : ℝ) < Real.log 2 := Real.log_pos (by norm_num)
  have h2u : Real.log 2 < 0.6931471808 := Real.log_two_lt_d9
  have h4e : Real.log (4 : ℝ) = 2 * Real.log 2 := by
    rw [show (4 : ℝ) = 2 ^ 2 by norm_num, Real.log_pow]
    push_cast
    ring
  have h34 : Real.log (3 : ℝ) < Real.log 4 :=
    Real.log_lt_log (by norm_num) (by norm_num)
  constructor
  · unfold log_1_minus_x
    rw [show (1 : ℝ) - 1 / 2 = 1 / 2 by norm_num, logHalf]
    intro h
    linarith
  · have n0 : neiCountByType M0 0 0 = 1 := by decide
    have n1 : neiCountByType M0 0 1 = 4 := by decide
    rw [score_M0_expand 0 0]
    unfold specScore
    show _ ≠ ∑ t ∈ Finset.range 2, _
    rw [Finset.sum_range_succ, Finset.sum_range_one]
    unfold oddsEntry log_1_minus_x
    rw [n0, n1, probM0_00, probM0_01,
      show (1 : ℝ) - 1 / 4 = 3 / 4 by norm_num,
      show (1 : ℝ) - 1 / 2 = 1 / 2 by norm_num,
      logQuarter, logHalf, logThreeQuarter]
    intro h
    push_cast at h
    nlinarith

/-- C2 counterexample: on the concrete model `M0` the greedy step commits a
change of assignment and the model's log-likelihood strictly decreases
across the step, refuting "the log-likelihood after the step is greater
than or equal to the log-likelihood before it". -/
theorem greedy_step_decreases_logLik :
    stepReturns M0 = true ∧ logLikelihood (stepApply M0) < logLikelihood M0 := by
  refine ⟨stepReturns_M0, ?_⟩
  rw [stepApply_M0, logL_M1, logL_M0, pairTerm_60_120, pairTerm_7_28,
    pairTerm_32_64, pairTerm_21_28, logHalf, logQuarter, logThreeQuarter]
  have h16 : Real.log (16 : ℝ) < Real.log 27 :=
    Real.log_lt_log (by norm_num) (by norm_num)
  have h16e : Real.log (16 : ℝ) = 4 * Real.log 2 := by
    rw [show (16 : ℝ) = 2 ^ 4 by norm_num, Real.log_pow]
    push_cast
    ring
  have h27e : Real.log (27 : ℝ) = 3 * Real.log 3 := by
    rw [show (27 : ℝ) = 3 ^ 3 by norm_num, Real.log_pow]
    push_cast
    ring
  rw [h16e, h27e] at h16
  linarith

/-- C2 (amended): a greedy step is not guaranteed to preserve or improve the
log-likelihood — it can strictly decrease it (see the counterexample);
what does hold is that a step reporting no change mutates nothing, so the
log-likelihood is unchanged across such a step. -/
theorem greedy_step_nochange_logLik (m : Model) (h : stepReturns m = false) :
    logLikelihood (stepApply m) = logLikelihood m := by
  rw [stepApply_of_no_change m h]

/-- Witness for the amended C2 theorem at the fixed point `M2`. -/
theorem greedy_step_nochange_logLik_witness :
    logLikelihood (stepApply M2) = logLikelihood M2 :=
  greedy_step_nochange_logLik M2 (by rfl)

/-- C3: the greedy step is a synchronous batch update — the whole buffer of
proposed types, each computed by `newType` from the state as it was at the
start of the call, is committed at once, and every vertex's post-step
block equals its proposal from that frozen snapshot, so no vertex's score
observes another vertex's reassignment from the same sweep. -/
theorem greedy_step_frozen (m : Model) (i : ℕ) (hi : i < m.graph.n) :
    (stepApply m).types = stepTypes m ∧
    (stepApply m).types.getD i 0 = newType m i :=
  ⟨stepApply_types m, stepApply_getD m i hi⟩

/-- Witness for the frozen-snapshot theorem on the concrete model `M3`. -/
theorem greedy_step_frozen_witness :
    (stepApply M3).types = stepTypes M3 ∧
    (stepApply M3).types.getD 0 0 = newType M3 0 :=
  greedy_step_frozen M3 0 (by decide)

/-- C5: `GreedyStrategy::step` returns true exactly when some vertex's block
assignment after the call differs from its value before the call, and
when it returns false nothing is mutated. -/
theorem greedy_step_change_report (m : Model) (h : m.types.length = m.graph.n) :
    (stepReturns m = true ↔
      ∃ i, i < m.graph.n ∧ (stepApply m).types.getD i 0 ≠ m.types.getD i 0) ∧
    (stepReturns m = false → stepApply m = m) := by
  refine ⟨⟨?_, ?_⟩, stepApply_of_no_change m⟩
  · intro ht
    have hne : stepTypes m ≠ m.types := by
      unfold stepReturns at ht
      exact of_decide_eq_true ht
    by_contra hc
    push_neg at hc
    apply hne
    apply List.ext_getElem
    · simp [stepTypes, h]
    · intro i h1 h2
      have hin : i < m.graph.n := by simpa [stepTypes] using h1
      have hD := hc i hin
      rw [stepApply_types] at hD
      rw [List.getD_eq_getElem _ 0 h1, List.getD_eq_getElem _ 0 h2] at hD
      exact hD
  · rintro ⟨i, hi, hne⟩
    by_contra hf
    have hfalse : stepReturns m = false := by
      cases hb : stepReturns m
      · rfl
      · exact absurd hb hf
    rw [stepApply_of_no_change m hfalse] at hne
    exact hne rfl

/-- Witness for the change-report theorem at the concrete model `M0`. -/
theorem greedy_step_change_report_witness :
    (stepReturns M0 = true ↔
      ∃ i, i < M0.graph.n ∧ (stepApply M0).types.getD i 0 ≠ M0.types.getD i 0) ∧
    (stepReturns M0 = false → stepApply M0 = M0) :=
  greedy_step_change_report M0 (by decide)

/-- C6: at a fixed point of the greedy strategy — a model on which `step`
has just returned "no change" — a further `step` also returns
"no change", so `optimize` is idempotent once it has returned. -/
theorem greedy_fixed_point_stable (m : Model) (h : stepReturns m = false) :
    stepReturns (stepApply m) = false := by
  rw [stepApply_of_no_change m h]
  exact h

/-- Witness at the concrete fixed point `M2`. -/
theorem greedy_fixed_point_stable_witness :
    stepReturns (stepApply M2) = false :=
  greedy_fixed_point_stable M2 (by rfl)

/-- C7: the block the greedy step assigns to a vertex is the first maximizer
of the candidate scores: it is in range, no candidate scores strictly
higher, and every lower-indexed candidate scores strictly lower — so when
several candidates attain the maximal score, the lowest index wins. -/
theorem greedy_tie_break_first (m : Model) (i j : ℕ) (hk : 0 < m.k)
    (hj : j < m.k) :
    newType m i < m.k ∧
    score m i j ≤ score m i (newType m i) ∧
    (j < newType m i → score m i j < score m i (newType m i)) := by
  unfold newType
  exact ⟨bestOf_lt _ _ hk, le_bestOf _ _ j hj, fun hlt => bestOf_first _ _ j hlt⟩

/-- Witness for the tie-break theorem at vertex 6 of `M3`, whose two
candidate scores are tied. -/
theorem greedy_tie_break_first_witness :
    newType M3 6 < M3.k ∧
    score M3 6 1 ≤ score M3 6 (newType M3 6) ∧
    (1 < newType M3 6 → score M3 6 1 < score M3 6 (newType M3 6)) :=
  greedy_tie_break_first M3 6 1 (by decide) (by decide)

/-- All probability-matrix entries of `M3` lie strictly between 0 and 1. -/
theorem M3_prob_open :
    ∀ a b, a < M3.k → b < M3.k → 0 < prob M3 a b ∧ prob M3 a b < 1 := by
  have h00 : prob M3 0 0 = 1 / 6 := by
    have he : edgeCount M3 0 0 = 1 := by decide
    have hp : pairCount M3 0 0 = 6 := by decide
    unfold prob
    rw [he, hp]
    norm_num
  have h01 : prob M3 0 1 = 1 / 12 := by
    have he : edgeCount M3 0 1 = 1 := by decide
    have hp : pairCount M3 0 1 = 12 := by decide
    unfold prob
    rw [he, hp]
    norm_num
  have h10 : prob M3 1 0 = 1 / 12 := by
    have he : edgeCount M3 1 0 = 1 := by decide
    have hp : pairCount M3 1 0 = 12 := by decide
    unfold prob
    rw [he, hp]
    norm_num
  have h11 : prob M3 1 1 = 1 / 3 := by
    have he : edgeCount M3 1 1 = 1 := by decide
    have hp : pairCount M3 1 1 = 3 := by decide
    unfold prob
    rw [he, hp]
    norm_num
  intro a b ha hb
  have hk : M3.k = 2 := rfl
  rw [hk] at ha hb
  interval_cases a <;> interval_cases b <;>
    simp only [h00, h01, h10, h11] <;> norm_num

/-- C10: in a model whose probability entries all lie strictly inside (0,1),
a vertex with no neighbors has the all-zero neighbor-count vector, so all
its candidate scores are 0 and the first maximum puts it in block 0. -/
theorem isolated_vertex_block_zero (m : Model) (i : ℕ) (hk : 0 < m.k)
    (hi : i < m.graph.n)
    (hp : ∀ a b, a < m.k → b < m.k → 0 < prob m a b ∧ prob m a b < 1)
    (hiso : ∀ j, j < m.graph.n → m.graph.adj i j = false) :
    (∀ c, score m i c = 0) ∧ (stepApply m).types.getD i 0 = 0 := by
  have hnei : ∀ t, neiCountByType m i t = 0 := by
    intro t
    unfold neiCountByType
    rw [List.countP_eq_zero]
    intro j hj
    rw [List.mem_range] at hj
    simp [hiso j hj]
  have hsc : ∀ c, score m i c = 0 := by
    intro c
    unfold score
    refine Finset.sum_eq_zero ?_
    intro t _
    rw [hnei t]
    simp
  refine ⟨hsc, ?_⟩
  rw [stepApply_getD m i hi]
  unfold newType
  by_contra hne
  have hpos : 0 < bestOf (score m i) m.k := Nat.pos_of_ne_zero hne
  have hlt := bestOf_first (score m i) m.k 0 hpos
  simp only [hsc] at hlt
  exact lt_irrefl 0 hlt

/-- Witness: the isolated vertex 6 of `M3` is scored 0 everywhere and sent
to block 0. -/
theorem isolated_vertex_block_zero_witness :
    (∀ c, score M3 6 c = 0) ∧ (stepApply M3).types.getD 6 0 = 0 :=
  isolated_vertex_block_zero M3 6 (by decide) (by decide) M3_prob_open
    (by decide)

/-- The sweep tries exactly the group counts `2 .. Nat.sqrt n`. -/
theorem sweepCandidates_mem (n k : ℕ) :
    k ∈ sweepCandidates n ↔ 2 ≤ k ∧ k ≤ Nat.sqrt n := by
  unfold sweepCandidates
  rw [List.mem_range'_1]
  omega

/-- Fields of `selStep` when no candidate has been accepted yet. -/
theorem selStep_none {α : Type} (fit : ℕ → α × ℝ × ℝ) (st : SelState α)
    (k : ℕ) (h : st.bestAIC = none) :
    (selStep fit st k).bestModel = some ((fit k).1) ∧
    (selStep fit st k).bestAIC = some ((fit k).2.1) := by
  constructor <;> (dsimp only [selStep]; rw [h])

/-- Fields of `selStep` when a best AIC is already recorded. -/
theorem selStep_some {α : Type} (fit : ℕ → α × ℝ × ℝ) (st : SelState α)
    (k : ℕ) (ba : ℝ) (h : st.bestAIC = some ba) :
    (selStep fit st k).bestModel =
      (if (fit k).2.1 < ba then some ((fit k).1) else st.bestModel) ∧
    (selStep fit st k).bestAIC =
      (if (fit k).2.1 < ba then some ((fit k).2.1) else st.bestAIC) := by
  constructor <;> (dsimp only [selStep]; rw [h])

/-- Invariant of the model-selection fold: the retained model and AIC always
come from one processed candidate whose AIC is minimal among all
processed candidates. -/
theorem sweep_inv {α : Type} (fit : ℕ → α × ℝ × ℝ) :
    ∀ (l seen : List ℕ) (st : SelState α),
      ((st.bestAIC = none ∧ st.bestModel = none ∧ seen = []) ∨
        (∃ j ∈ seen, st.bestModel = some ((fit j).1) ∧
          st.bestAIC = some ((fit j).2.1) ∧
          ∀ j2 ∈ seen, (fit j).2.1 ≤ (fit j2).2.1)) →
      (((l.foldl (selStep fit) st).bestAIC = none ∧
          (l.foldl (selStep fit) st).bestModel = none ∧ seen ++ l = []) ∨
        (∃ j ∈ seen ++ l,
          (l.foldl (selStep fit) st).bestModel = some ((fit j).1) ∧
          (l.foldl (selStep fit) st).bestAIC = some ((fit j).2.1) ∧
          ∀ j2 ∈ seen ++ l, (fit j).2.1 ≤ (fit j2).2.1)) := by
  intro l
  induction l with
  | nil => intro seen st h; simpa using h
  | cons k l ih =>
    intro seen st h
    have hstep :
        ((selStep fit st k).bestAIC = none ∧
            (selStep fit st k).bestModel = none ∧ seen ++ [k] = []) ∨
          (∃ j ∈ seen ++ [k],
            (selStep fit st k).bestModel = some ((fit j).1) ∧
            (selStep fit st k).bestAIC = some ((fit j).2.1) ∧
            ∀ j2 ∈ seen ++ [k], (fit j).2.1 ≤ (fit j2).2.1) := by
      right
      rcases h with ⟨hA, hM, hseen⟩ | ⟨j, hj, hM, hA, hmin⟩
      · refine ⟨k, by simp, (selStep_none fit st k hA).1,
          (selStep_none fit st k hA).2, ?_⟩
        intro j2 hj2
        rw [hseen] at hj2
        simp at hj2
        rw [hj2]
      · by_cases hlt : (fit k).2.1 < (fit j).2.1
        · refine ⟨k, by simp, ?_, ?_, ?_⟩
          · rw [(selStep_some fit st k _ hA).1, if_pos hlt]
          · rw [(selStep_some fit st k _ hA).2, if_pos hlt]
          · intro j2 hj2
            rcases List.mem_append.mp hj2 with h2 | h2
            · exact le_of_lt (lt_of_lt_of_le hlt (hmin j2 h2))
            · simp at h2
              rw [h2]
        · refine ⟨j, List.mem_append_left _ hj, ?_, ?_, ?_⟩
          · rw [(selStep_some fit st k _ hA).1, if_neg hlt, hM]
          · rw [(selStep_some fit st k _ hA).2, if_neg hlt, hA]
          · intro j2 hj2
            rcases List.mem_append.mp hj2 with h2 | h2
            · exact hmin j2 h2
            · simp at h2
              rw [h2]
              exact le_of_not_lt hlt
    have := ih (seen ++ [k]) (selStep fit st k) hstep
    simpa [List.append_assoc] using this

/-- The retained best model and best AIC of the sweep do not depend on the
BIC values reported by the fits. -/
theorem sweep_bic_indep {α : Type} (fit fit2 : ℕ → α × ℝ × ℝ)
    (hsame : ∀ j, (fit j).1 = (fit2 j).1 ∧ (fit j).2.1 = (fit2 j).2.1) :
    ∀ (l : List ℕ) (st st2 : SelState α),
      st.bestModel = st2.bestModel → st.bestAIC = st2.bestAIC →
      (l.foldl (selStep fit) st).bestModel =
          (l.foldl (selStep fit2) st2).bestModel ∧
        (l.foldl (selStep fit) st).bestAIC =
          (l.foldl (selStep fit2) st2).bestAIC := by
  intro l
  induction l with
  | nil => intro st st2 hM hA; exact ⟨hM, hA⟩
  | cons k l ih =>
    intro st st2 hM hA
    refine ih (selStep fit st k) (selStep fit2 st2 k) ?_ ?_
    · show (match st.bestAIC with
        | none => some ((fit k).1)
        | some ba =>
            if (fit k).2.1 < ba then some ((fit k).1) else st.bestModel) =
        (match st2.bestAIC with
        | none => some ((fit2 k).1)
        | some ba =>
            if (fit2 k).2.1 < ba then some ((fit2 k).1) else st2.bestModel)
      rw [← hA, ← hM, (hsame k).1, (hsame k).2]
    · show (match st.bestAIC with
        | none => some ((fit k).2.1)
        | some ba =>
            if (fit k).2.1 < ba then some ((fit k).2.1) else st.bestAIC) =
        (match st2.bestAIC with
        | none => some ((fit2 k).2.1)
        | some ba =>
            if (fit2 k).2.1 < ba then some ((fit2 k).2.1) else st2.bestAIC)
      rw [← hA, (hsame k).2]

/-- C4: with `K` unspecified, the driver sweeps the candidate group counts
`2 .. floor (sqrt n)` inclusive, retains the (first) fitted model of
minimum AIC together with that AIC, and the retained model and AIC are
unchanged under arbitrary changes of the reported BIC values — BIC is
tracked but never drives the selection. `fit k` abstracts the full
fit-to-convergence run with `k` groups, returning the best model found
and its AIC and BIC. -/
theorem sweep_min_aic {α : Type} (n : ℕ) (fit fit2 : ℕ → α × ℝ × ℝ)
    (hn : 2 ≤ Nat.sqrt n)
    (hsame : ∀ j, (fit j).1 = (fit2 j).1 ∧ (fit j).2.1 = (fit2 j).2.1) :
    (∀ k, k ∈ sweepCandidates n ↔ 2 ≤ k ∧ k ≤ Nat.sqrt n) ∧
    (∃ kStar ∈ sweepCandidates n,
      (runSweep fit n).bestModel = some ((fit kStar).1) ∧
      (runSweep fit n).bestAIC = some ((fit kStar).2.1) ∧
      ∀ k ∈ sweepCandidates n, (fit kStar).2.1 ≤ (fit k).2.1) ∧
    ((runSweep fit n).bestModel = (runSweep fit2 n).bestModel ∧
      (runSweep fit n).bestAIC = (runSweep fit2 n).bestAIC) := by
  refine ⟨fun k => sweepCandidates_mem n k, ?_, ?_⟩
  · have h2 : (2 : ℕ) ∈ sweepCandidates n :=
      (sweepCandidates_mem n 2).mpr ⟨le_refl 2, hn⟩
    have hinv := sweep_inv fit (sweepCandidates n) [] ⟨none, none, none⟩
      (Or.inl ⟨rfl, rfl, rfl⟩)
    rcases hinv with ⟨_, _, hnil⟩ | ⟨j, hj, hM, hA, hmin⟩
    · rw [List.nil_append] at hnil
      rw [hnil] at h2
      exact absurd h2 (List.not_mem_nil 2)
    · rw [List.nil_append] at hj hmin
      exact ⟨j, hj, hM, hA, hmin⟩
  · exact sweep_bic_indep fit fit2 hsame (sweepCandidates n)
      ⟨none, none, none⟩ ⟨none, none, none⟩ rfl rfl

/-- Witness for the sweep theorem: nine vertices, candidates 2 and 3, AIC
equal to the group count, arbitrary differing BIC values. -/
theorem sweep_min_aic_witness :
    (∀ k, k ∈ sweepCandidates 9 ↔ 2 ≤ k ∧ k ≤ Nat.sqrt 9) ∧
    (∃ kStar ∈ sweepCandidates 9,
      (runSweep (fun k => (k, (k : ℝ), (k : ℝ))) 9).bestModel =
        some ((fun k => ((k : ℕ), (k : ℝ), (k : ℝ))) kStar).1 ∧
      (runSweep (fun k => (k, (k : ℝ), (k : ℝ))) 9).bestAIC =
        some (((fun k => ((k : ℕ), (k : ℝ), (k : ℝ))) kStar).2.1) ∧
      ∀ k ∈ sweepCandidates 9,
        (((fun k => ((k : ℕ), (k : ℝ), (k : ℝ))) kStar).2.1 ≤
          ((fun k => ((k : ℕ), (k : ℝ), (k : ℝ))) k).2.1)) ∧
    ((runSweep (fun k => (k, (k : ℝ), (k : ℝ))) 9).bestModel =
        (runSweep (fun k => (k, (k : ℝ), 0)) 9).bestModel ∧
      (runSweep (fun k => (k, (k : ℝ), (k : ℝ))) 9).bestAIC =
        (runSweep (fun k => (k, (k : ℝ), 0)) 9).bestAIC) :=
  sweep_min_aic 9 (fun k => (k, (k : ℝ), (k : ℝ))) (fun k => (k, (k : ℝ), 0))
    (Nat.le_sqrt.mpr (by norm_num)) (fun j => ⟨rfl, rfl⟩)

/-- One chain step never decreases the recorded best log-likelihood. -/
theorem bestState_succ_le {α : Type} (logLs : ℕ → ℝ) (mdls : ℕ → α)
    (init : ℝ × α) (t : ℕ) :
    (bestState logLs mdls init t).1 ≤ (bestState logLs mdls init (t + 1)).1 := by
  show _ ≤ (bestStep logLs mdls (bestState logLs mdls init t) t).1
  unfold bestStep
  by_cases h : (bestState logLs mdls init t).1 < logLs t
  · rw [if_pos h]
    exact le_of_lt h
  · rw [if_neg h]

/-- The recorded best log-likelihood is monotone along the run. -/
theorem bestState_mono {α : Type} (logLs : ℕ → ℝ) (mdls : ℕ → α)
    (init : ℝ × α) : ∀ s t, s ≤ t →
    (bestState logLs mdls init s).1 ≤ (bestState logLs mdls init t).1 := by
  intro s t h
  induction t with
  | zero =>
    rw [Nat.le_zero] at h
    rw [h]
  | succ n ih =>
    by_cases heq : s = n + 1
    · rw [heq]
    · have hsn : s ≤ n := by omega
      exact le_trans (ih hsn) (bestState_succ_le logLs mdls init n)

/-- The recorded best dominates every log-likelihood observed so far. -/
theorem bestState_observed {α : Type} (logLs : ℕ → ℝ) (mdls : ℕ → α)
    (init : ℝ × α) : ∀ t j, j < t →
    logLs j ≤ (bestState logLs mdls init t).1 := by
  intro t
  induction t with
  | zero => intro j hj; exact absurd hj (Nat.not_lt_zero j)
  | succ n ih =>
    intro j hj
    by_cases hjn : j = n
    · show _ ≤ (bestStep logLs mdls (bestState logLs mdls init n) n).1
      unfold bestStep
      by_cases h : (bestState logLs mdls init n).1 < logLs n
      · rw [if_pos h, hjn]
      · rw [if_neg h, hjn]
        exact le_of_not_lt h
    · have : j < n := by omega
      exact le_trans (ih j this) (bestState_succ_le logLs mdls init n)

/-- C8: in the best-model tracking of a sampling run, the recorded best
log-likelihood is monotonically non-decreasing and dominates every
log-likelihood observed so far, and the snapshot is replaced — by a copy
of the live model together with its log-likelihood — exactly when the
observed log-likelihood strictly exceeds the recorded best; otherwise the
state is left untouched. -/
theorem best_tracking {α : Type} (logLs : ℕ → ℝ) (mdls : ℕ → α)
    (init : ℝ × α) (s t : ℕ) (hst : s ≤ t) :
    (bestState logLs mdls init s).1 ≤ (bestState logLs mdls init t).1 ∧
    (∀ j, j < t → logLs j ≤ (bestState logLs mdls init t).1) ∧
    ((bestState logLs mdls init t).1 < logLs t →
      bestState logLs mdls init (t + 1) = (logLs t, mdls t)) ∧
    (logLs t ≤ (bestState logLs mdls init t).1 →
      bestState logLs mdls init (t + 1) = bestState logLs mdls init t) := by
  refine ⟨bestState_mono logLs mdls init s t hst,
    bestState_observed logLs mdls init t, ?_, ?_⟩
  · intro h
    show bestStep logLs mdls (bestState logLs mdls init t) t = _
    unfold bestStep
    rw [if_pos h]
  · intro h
    show bestStep logLs mdls (bestState logLs mdls init t) t = _
    unfold bestStep
    rw [if_neg (not_lt.mpr h)]

/-- Witness for the best-tracking theorem on a concrete run. -/
theorem best_tracking_witness :
    (bestState (fun j => (j : ℝ)) (fun j => j) (0, 0) 1).1 ≤
      (bestState (fun j => (j : ℝ)) (fun j => j) (0, 0) 2).1 ∧
    (∀ j, j < 2 →
      ((j : ℕ) : ℝ) ≤ (bestState (fun j => (j : ℝ)) (fun j => j) (0, 0) 2).1) ∧
    ((bestState (fun j => (j : ℝ)) (fun j => j) (0, 0) 2).1 < ((2 : ℕ) : ℝ) →
      bestState (fun j => (j : ℝ)) (fun j => j) (0, 0) (2 + 1) =
        (((2 : ℕ) : ℝ), (2 : ℕ))) ∧
    (((2 : ℕ) : ℝ) ≤ (bestState (fun j => (j : ℝ)) (fun j => j) (0, 0) 2).1 →
      bestState (fun j => (j : ℝ)) (fun j => j) (0, 0) (2 + 1) =
        bestState (fun j => (j : ℝ)) (fun j => j) (0, 0) 2) :=
  best_tracking (fun j => (j : ℝ)) (fun j => j) ((0 : ℝ), (0 : ℕ)) 1 2
    (by norm_num)

/-- C9: loading the graph from a named file that cannot be opened yields the
fatal error "File not found: " followed by the offending filename, and no
fitting work is performed (no fitted value is ever produced); with
filename "-" the graph is read from standard input and loading always
succeeds. -/
theorem load_graph_errors {β : Type} (fs : String → Option Graph)
    (stdinG : Graph) (filename : String) (fit : Graph → β) :
    (filename ≠ "-" → fs filename = none →
      runApp fs stdinG filename fit =
        Except.error ("File not found: " ++ filename) ∧
      ∀ b, runApp fs stdinG filename fit ≠ Except.ok b) ∧
    (filename = "-" → runApp fs stdinG filename fit = Except.ok (fit stdinG)) := by
  constructor
  · intro hne hnone
    have h : runApp fs stdinG filename fit =
        Except.error (fileNotFoundMsg filename) := by
      unfold runApp loadGraph
      rw [if_neg hne, hnone]
      rfl
    refine ⟨h, ?_⟩
    intro b hb
    rw [h] at hb
    exact Except.noConfusion hb
  · intro heq
    unfold runApp loadGraph
    rw [if_pos heq]
    rfl

/-- Witness for the loading-error theorem at a concrete missing file. -/
theorem load_graph_errors_witness :
    runApp (fun _ => none) G2 "graph.txt" (fun g => g.n) =
      Except.error ("File not found: " ++ "graph.txt") ∧
    ∀ b, runApp (fun _ => none) G2 "graph.txt" (fun g => g.n) ≠ Except.ok b :=
  (load_graph_errors (fun _ => none) G2 "graph.txt" (fun g => g.n)).1
    (by decide) rfl

end BM
